import Mathlib

/-!
Verification of the authorization decision core (effect algebra, dependent
effects, policy trees, subject matching, policy templates) against its
natural-language specification. Definitions below are shallow embeddings of
the Rust source: `Option Effect` stands for the Rust `Option<Effect>`
computed effect (with `none` as silence), environments are modeled as
functions `CExp → Except ε Bool` standing for the `Environment` trait's
`test_condition`, and matchers are modeled by their `test` functions.
-/

namespace AuthzCore

/-- Definite authorization effect (`Effect` in `src/authorization.rs`):
either `ALLOW` or `DENY`. -/
inductive Effect where
  | ALLOW
  | DENY
deriving DecidableEq, Repr

/-- Computed (three-valued) effect: a definite effect or silence, embedded
as `Option Effect` exactly as the source uses `Option<Effect>`. -/
abbrev ComputedEffect := Option Effect

/-- Silence: no applicable statement said anything (`None` in the source). -/
def SILENT : ComputedEffect := none

/-- The `authorized` function of `src/authorization.rs`: `Some(ALLOW)` is the
only result denoting authorization. -/
def authorized (eff : ComputedEffect) : Bool := eff == some Effect.ALLOW

/-- The fold step inside `combine_non_strict` (`src/authorization.rs`,
the `match (a, e)` in its `fold`). -/
def nonStrictStep : ComputedEffect → ComputedEffect → ComputedEffect
  | none, x => x
  | some e, none => some e
  | some Effect.ALLOW, some Effect.ALLOW => some Effect.ALLOW
  | _, _ => some Effect.DENY

/-- `combine_non_strict` of `src/authorization.rs`: fold the step function
over the inputs starting from silence. -/
def combine_non_strict (effs : List ComputedEffect) : ComputedEffect :=
  effs.foldl nonStrictStep SILENT

/-- The fold step inside `combine_strict` (`src/authorization.rs`): the
accumulator is `Option<Option<Effect>>`, with outer `none` meaning no
input has been consumed yet (`O_INIT` in the source). -/
def strictStep : Option ComputedEffect → ComputedEffect → Option ComputedEffect
  | none, x => some x
  | some none, _ => some none
  | _, none => some none
  | some (some Effect.ALLOW), some Effect.ALLOW => some (some Effect.ALLOW)
  | _, _ => some (some Effect.DENY)

/-- `combine_strict` of `src/authorization.rs`: fold and then
`unwrap_or(SILENT)`. -/
def combine_strict (effs : List ComputedEffect) : ComputedEffect :=
  (effs.foldl strictStep none).getD SILENT

theorem nonStrictStep_assoc (a b c : ComputedEffect) :
    nonStrictStep (nonStrictStep a b) c = nonStrictStep a (nonStrictStep b c) := by
  cases a <;> cases b <;> cases c <;>
    first
      | rfl
      | (rename_i x y z; cases x <;> cases y <;> cases z <;> rfl)
      | (rename_i x y; cases x <;> cases y <;> rfl)
      | (rename_i x; cases x <;> rfl)

theorem nonStrictStep_comm (a b : ComputedEffect) :
    nonStrictStep a b = nonStrictStep b a := by
  cases a <;> cases b <;>
    first
      | rfl
      | (rename_i x y; cases x <;> cases y <;> rfl)
      | (rename_i x; cases x <;> rfl)

theorem nonStrictStep_silent_left (a : ComputedEffect) :
    nonStrictStep SILENT a = a := rfl

/-- Folding from an arbitrary accumulator factors through the combination
of the list alone. -/
theorem foldl_nonStrictStep_eq (l : List ComputedEffect) :
    ∀ a : ComputedEffect, l.foldl nonStrictStep a = nonStrictStep a (combine_non_strict l) := by
  induction l with
  | nil =>
    intro a
    cases a with
    | none => rfl
    | some e => cases e <;> rfl
  | cons x xs ih =>
    intro a
    have hx : combine_non_strict (x :: xs) = nonStrictStep x (combine_non_strict xs) := by
      show (x :: xs).foldl nonStrictStep SILENT = _
      rw [List.foldl_cons, ih (nonStrictStep SILENT x)]
      rfl
    rw [List.foldl_cons, ih (nonStrictStep a x), hx, nonStrictStep_assoc]

theorem combine_non_strict_cons (x : ComputedEffect) (xs : List ComputedEffect) :
    combine_non_strict (x :: xs) = nonStrictStep x (combine_non_strict xs) := by
  show (x :: xs).foldl nonStrictStep SILENT = _
  rw [List.foldl_cons, foldl_nonStrictStep_eq]
  rfl

/-- Semantic characterization of the non-strict combination: any `DENY`
wins, otherwise any `ALLOW` wins, otherwise silence. -/
theorem combine_non_strict_sem (l : List ComputedEffect) :
    combine_non_strict l =
      if some Effect.DENY ∈ l then some Effect.DENY
      else if some Effect.ALLOW ∈ l then some Effect.ALLOW
      else SILENT := by
  induction l with
  | nil => rfl
  | cons x xs ih =>
    rw [combine_non_strict_cons, ih]
    by_cases hd : some Effect.DENY ∈ xs <;> by_cases ha : some Effect.ALLOW ∈ xs <;>
      cases x with
      | none =>
        simp [List.mem_cons, hd, ha, nonStrictStep, SILENT]
      | some e =>
        cases e <;> simp [List.mem_cons, hd, ha, nonStrictStep, SILENT]

/-- Behavior of `strictStep` once at least one input has been consumed
(the accumulator is `Some(_)`): silence is absorbing, deny dominates. -/
def strictStepSeen : ComputedEffect → ComputedEffect → ComputedEffect
  | none, _ => none
  | _, none => none
  | some Effect.ALLOW, some Effect.ALLOW => some Effect.ALLOW
  | _, _ => some Effect.DENY

theorem strictStep_some (a x : ComputedEffect) :
    strictStep (some a) x = some (strictStepSeen a x) := by
  cases a with
  | none =>
    cases x with
    | none => rfl
    | some f => cases f <;> rfl
  | some e =>
    cases x with
    | none => cases e <;> rfl
    | some f => cases e <;> cases f <;> rfl

theorem strictStep_none (x : ComputedEffect) : strictStep none x = some x := by
  cases x with
  | none => rfl
  | some e => cases e <;> rfl

theorem foldl_strictStep_some (l : List ComputedEffect) :
    ∀ a : ComputedEffect, l.foldl strictStep (some a) = some (l.foldl strictStepSeen a) := by
  induction l with
  | nil => intro a; rfl
  | cons x xs ih =>
    intro a
    rw [List.foldl_cons, List.foldl_cons, strictStep_some, ih]

theorem foldl_strictStepSeen_sem (l : List ComputedEffect) :
    ∀ a : ComputedEffect,
      l.foldl strictStepSeen a =
        if a = SILENT ∨ SILENT ∈ l then SILENT
        else if a = some Effect.DENY ∨ some Effect.DENY ∈ l then some Effect.DENY
        else some Effect.ALLOW := by
  induction l with
  | nil =>
    intro a
    cases a with
    | none => simp [SILENT]
    | some e => cases e <;> simp [SILENT]
  | cons x xs ih =>
    intro a
    rw [List.foldl_cons, ih]
    by_cases hs : SILENT ∈ xs <;> by_cases hd : some Effect.DENY ∈ xs <;>
      cases a with
      | none =>
        simp [List.mem_cons, hs, hd, strictStepSeen, SILENT]
      | some e =>
        cases x with
        | none => cases e <;> simp [List.mem_cons, hs, hd, strictStepSeen, SILENT]
        | some f => cases e <;> cases f <;> simp [List.mem_cons, hs, hd, strictStepSeen, SILENT]

/-- Semantic characterization of the strict combination: silence on empty
input, any silent constituent absorbs, otherwise deny dominates. -/
theorem combine_strict_sem (l : List ComputedEffect) :
    combine_strict l =
      if l = [] then SILENT
      else if SILENT ∈ l then SILENT
      else if some Effect.DENY ∈ l then some Effect.DENY
      else some Effect.ALLOW := by
  cases l with
  | nil => rfl
  | cons x xs =>
    show ((x :: xs).foldl strictStep none).getD SILENT = _
    rw [List.foldl_cons, strictStep_none, foldl_strictStep_some, foldl_strictStepSeen_sem]
    by_cases hs : SILENT ∈ xs <;> by_cases hd : some Effect.DENY ∈ xs <;>
      cases x with
      | none => simp [List.mem_cons, hs, hd, SILENT]
      | some e => cases e <;> simp [List.mem_cons, hs, hd, SILENT]

theorem combine_strict_singleton (x : ComputedEffect) :
    combine_strict [x] = x := by
  rw [combine_strict_sem]
  cases x with
  | none => simp [SILENT]
  | some e => cases e <;> simp [SILENT]

/-- Claim C1: `combine_non_strict` returns SILENT when the sequence is empty
or every element is SILENT; otherwise it returns DENY if at least one
element is DENY, and ALLOW if at least one element is ALLOW and no element
is DENY. -/
theorem C1_combine_non_strict_cases (l : List ComputedEffect) :
    ((l = [] ∨ ∀ e ∈ l, e = SILENT) → combine_non_strict l = SILENT) ∧
    (some Effect.DENY ∈ l → combine_non_strict l = some Effect.DENY) ∧
    (some Effect.ALLOW ∈ l → some Effect.DENY ∉ l →
      combine_non_strict l = some Effect.ALLOW) := by
  rw [combine_non_strict_sem]
  refine ⟨?_, ?_, ?_⟩
  · rintro (rfl | hall)
    · simp
    · have hd : some Effect.DENY ∉ l := fun h => by cases hall _ h
      have ha : some Effect.ALLOW ∉ l := fun h => by cases hall _ h
      simp [hd, ha]
  · intro hd; simp [hd]
  · intro ha hd; simp [ha, hd]

/-- Concrete instances of claim C1: deny dominance, allow when no deny,
silence when all silent. -/
theorem C1_witness :
    combine_non_strict [some Effect.ALLOW, some Effect.DENY, some Effect.ALLOW] =
      some Effect.DENY ∧
    combine_non_strict [SILENT, some Effect.ALLOW] = some Effect.ALLOW ∧
    combine_non_strict [SILENT, SILENT] = SILENT :=
  ⟨(C1_combine_non_strict_cases _).2.1 (by decide),
   (C1_combine_non_strict_cases _).2.2 (by decide) (by decide),
   (C1_combine_non_strict_cases _).1 (Or.inr (by decide))⟩

/-- Claim C2: `combine_strict` returns SILENT when the sequence is empty or
contains at least one SILENT element; when the sequence is non-empty and
every element is definite, it returns DENY if any element is DENY and
ALLOW otherwise. -/
theorem C2_combine_strict_cases (l : List ComputedEffect) :
    ((l = [] ∨ SILENT ∈ l) → combine_strict l = SILENT) ∧
    (l ≠ [] → SILENT ∉ l → some Effect.DENY ∈ l →
      combine_strict l = some Effect.DENY) ∧
    (l ≠ [] → SILENT ∉ l → some Effect.DENY ∉ l →
      combine_strict l = some Effect.ALLOW) := by
  rw [combine_strict_sem]
  refine ⟨?_, ?_, ?_⟩
  · rintro (rfl | hsil)
    · simp
    · simp [hsil]
  · intro hne hsil hd; simp [hne, hsil, hd]
  · intro hne hsil hd; simp [hne, hsil, hd]

/-- Concrete instances of claim C2: silence absorbs, deny dominates among
definite effects, all-allow yields allow. -/
theorem C2_witness :
    combine_strict [SILENT, some Effect.ALLOW] = SILENT ∧
    combine_strict [some Effect.ALLOW, some Effect.DENY, some Effect.ALLOW] =
      some Effect.DENY ∧
    combine_strict [some Effect.ALLOW, some Effect.ALLOW] = some Effect.ALLOW :=
  ⟨(C2_combine_strict_cases _).1 (Or.inr (by decide)),
   (C2_combine_strict_cases _).2.1 (by decide) (by decide) (by decide),
   (C2_combine_strict_cases _).2.2 (by decide) (by decide) (by decide)⟩

theorem combine_non_strict_append (l₁ l₂ : List ComputedEffect) :
    combine_non_strict (l₁ ++ l₂) =
      nonStrictStep (combine_non_strict l₁) (combine_non_strict l₂) := by
  show (l₁ ++ l₂).foldl nonStrictStep SILENT = _
  rw [List.foldl_append, foldl_nonStrictStep_eq]
  rfl

theorem combine_strict_append (l₁ l₂ : List ComputedEffect)
    (h₁ : l₁ ≠ []) (h₂ : l₂ ≠ []) :
    combine_strict (l₁ ++ l₂) =
      strictStepSeen (combine_strict l₁) (combine_strict l₂) := by
  rw [combine_strict_sem, combine_strict_sem l₁, combine_strict_sem l₂]
  have happ : l₁ ++ l₂ ≠ [] := fun h => h₁ (List.append_eq_nil.mp h).1
  by_cases hs₁ : SILENT ∈ l₁ <;> by_cases hs₂ : SILENT ∈ l₂ <;>
    by_cases hd₁ : some Effect.DENY ∈ l₁ <;> by_cases hd₂ : some Effect.DENY ∈ l₂ <;>
    simp [h₁, h₂, happ, hs₁, hs₂, hd₁, hd₂, List.mem_append, strictStepSeen]
  all_goals rfl

theorem flatten_ne_nil_of_mem {gs : List (List ComputedEffect)}
    (h : ∀ g ∈ gs, g ≠ []) (hne : gs ≠ []) : gs.flatten ≠ [] := by
  cases gs with
  | nil => exact absurd rfl hne
  | cons g gs =>
    intro hfl
    rw [List.flatten_cons] at hfl
    exact h g (List.mem_cons_self _ _) (List.append_eq_nil.mp hfl).1

theorem combine_non_strict_grouping (gs : List (List ComputedEffect)) :
    combine_non_strict (gs.map combine_non_strict) = combine_non_strict gs.flatten := by
  induction gs with
  | nil => rfl
  | cons g gs ih =>
    rw [List.map_cons, List.flatten_cons, combine_non_strict_cons,
      combine_non_strict_append, ih]

theorem combine_strict_grouping (gs : List (List ComputedEffect))
    (h : ∀ g ∈ gs, g ≠ []) :
    combine_strict (gs.map combine_strict) = combine_strict gs.flatten := by
  induction gs with
  | nil => rfl
  | cons g gs ih =>
    rw [List.map_cons, List.flatten_cons]
    by_cases hgs : gs = []
    · subst hgs
      simp [combine_strict_singleton]
    · have hg : g ≠ [] := h g (List.mem_cons_self _ _)
      have htail : ∀ x ∈ gs, x ≠ [] := fun x hx => h x (List.mem_cons_of_mem _ hx)
      have hmapne : gs.map combine_strict ≠ [] := by
        simp [hgs]
      have hflne : gs.flatten ≠ [] := flatten_ne_nil_of_mem htail hgs
      have hsing : combine_strict g :: gs.map combine_strict =
          [combine_strict g] ++ gs.map combine_strict := rfl
      rw [hsing, combine_strict_append _ _ (by simp) hmapne,
        combine_strict_singleton, ih htail,
        ← combine_strict_append g gs.flatten hg hflne]

/-- Claim C3: both combinators are order- and grouping-independent: every
permutation of the inputs yields the same result, and combining a
partition of the inputs (finitely many nonempty groups, concatenating to
the whole) group-wise and then combining the group results equals
combining all inputs in one pass. For the non-strict combinator the
grouping law needs no nonemptiness, so it is stated for arbitrary groups. -/
theorem C3_combine_perm_and_grouping :
    (∀ l₁ l₂ : List ComputedEffect, l₁.Perm l₂ →
      combine_non_strict l₁ = combine_non_strict l₂ ∧
      combine_strict l₁ = combine_strict l₂) ∧
    (∀ gs : List (List ComputedEffect),
      combine_non_strict (gs.map combine_non_strict) =
        combine_non_strict gs.flatten) ∧
    (∀ gs : List (List ComputedEffect), (∀ g ∈ gs, g ≠ []) →
      combine_strict (gs.map combine_strict) = combine_strict gs.flatten) := by
  refine ⟨?_, combine_non_strict_grouping, combine_strict_grouping⟩
  intro l₁ l₂ hperm
  have hmem : ∀ x : ComputedEffect, x ∈ l₁ ↔ x ∈ l₂ := fun x => hperm.mem_iff
  have hnil : l₁ = [] ↔ l₂ = [] := by
    constructor
    · intro h; subst h; exact hperm.symm.eq_nil
    · intro h; subst h; exact hperm.eq_nil
  constructor
  · simp only [combine_non_strict_sem, hmem]
  · simp only [combine_strict_sem, hmem, hnil]

/-- Concrete instance of claim C3: a permutation and a regrouping of
[ALLOW, DENY, SILENT] leave both combinations unchanged. -/
theorem C3_witness :
    (combine_non_strict [some Effect.ALLOW, some Effect.DENY, SILENT] =
      combine_non_strict [SILENT, some Effect.DENY, some Effect.ALLOW] ∧
     combine_strict [some Effect.ALLOW, some Effect.DENY, SILENT] =
      combine_strict [SILENT, some Effect.DENY, some Effect.ALLOW]) ∧
    combine_strict
        ([[some Effect.ALLOW], [some Effect.DENY, SILENT]].map combine_strict) =
      combine_strict [some Effect.ALLOW, some Effect.DENY, SILENT] :=
  ⟨C3_combine_perm_and_grouping.1 _ _ (by decide),
   C3_combine_perm_and_grouping.2.2 [[some Effect.ALLOW], [some Effect.DENY, SILENT]]
     (by intro g hg; fin_cases hg <;> simp)⟩

/-- Dependent authorization effect (`DependentEffect<CExp>` in
`crates/core/src/dependent_effect.rs`; the same type appears in
`src/dependent_effect.rs` and `src/effect.rs` with the variant names
Silent/Fixed/Atomic/Aggregate/Disjoint for
Silent/Unconditional/Conditional/NonStrict/Strict). -/
inductive DependentEffect (CExp : Type u) where
  | Silent
  | Fixed (eff : Effect)
  | Atomic (eff : Effect) (cexp : CExp)
  | NonStrict (children : List (DependentEffect CExp))
  | Strict (children : List (DependentEffect CExp))

/-- An environment is modeled by its `test_condition` method of the
`Environment` trait: a function from condition expressions to a fallible
boolean. -/
abbrev Env (CExp : Type u) (ε : Type v) := CExp → Except ε Bool

mutual

/-- `DependentEffect::resolve`: evaluate a dependent effect in an
environment. Composite nodes collect their children's results
(short-circuiting on the first error, like the Rust `collect` over an
iterator of `Result`s) and combine them. -/
def DependentEffect.resolve (env : Env CExp ε) :
    DependentEffect CExp → Except ε ComputedEffect
  | .Silent => .ok SILENT
  | .Atomic eff cexp =>
    match env cexp with
    | .error e => .error e
    | .ok true => .ok (some eff)
    | .ok false => .ok SILENT
  | .Fixed eff => .ok (some eff)
  | .NonStrict perms =>
    match resolve_all env perms with
    | .error e => .error e
    | .ok resolved => .ok (combine_non_strict resolved)
  | .Strict effs =>
    match resolve_all env effs with
    | .error e => .error e
    | .ok resolved => .ok (combine_strict resolved)

/-- `resolve_all` of `crates/core/src/dependent_effect.rs`: resolve a batch
of dependent effects, short-circuiting on the first error in iteration
order. The `NonStrict`/`Strict` arms of `resolve` collect child results
the same way. -/
def resolve_all (env : Env CExp ε) :
    List (DependentEffect CExp) → Except ε (List ComputedEffect)
  | [] => .ok []
  | p :: ps =>
    match DependentEffect.resolve env p with
    | .error e => .error e
    | .ok r =>
      match resolve_all env ps with
      | .error e => .error e
      | .ok rs => .ok (r :: rs)

end

theorem resolve_all_of_forall_ok {CExp : Type u} {ε : Type v}
    (env : Env CExp ε) (f : DependentEffect CExp → ComputedEffect) :
    ∀ (l : List (DependentEffect CExp)),
      (∀ x ∈ l, DependentEffect.resolve env x = .ok (f x)) →
      resolve_all env l = .ok (l.map f) := by
  intro l
  induction l with
  | nil => intro _; rfl
  | cons x xs ih =>
    intro h
    have hx := h x (List.mem_cons_self _ _)
    have hxs := ih fun y hy => h y (List.mem_cons_of_mem _ hy)
    rw [List.map_cons]
    show (match DependentEffect.resolve env x with
      | .error e => Except.error e
      | .ok r =>
        match resolve_all env xs with
        | .error e => Except.error e
        | .ok rs => Except.ok (r :: rs)) = _
    rw [hx, hxs]

/-- Claim C4: `Silent` resolves to `Ok(SILENT)`; `Unconditional`/`Fixed(e)`
resolves to `Ok(e)`; `Conditional`/`Atomic(e, cexp)` resolves to `Ok(e)`
on a true condition, `Ok(SILENT)` on a false one, and propagates the
environment's error; and when all children resolve without error, a
`NonStrict` node resolves to `combine_non_strict` of the children's
results and a `Strict` node to `combine_strict` of them. -/
theorem C4_resolve_cases {CExp : Type u} {ε : Type v} (env : Env CExp ε)
    (e : Effect) (c : CExp) (er : ε)
    (cs : List (DependentEffect CExp)) (f : DependentEffect CExp → ComputedEffect) :
    DependentEffect.resolve env (.Silent : DependentEffect CExp) = .ok SILENT ∧
    DependentEffect.resolve env (.Fixed e : DependentEffect CExp) = .ok (some e) ∧
    (env c = .ok true → DependentEffect.resolve env (.Atomic e c) = .ok (some e)) ∧
    (env c = .ok false → DependentEffect.resolve env (.Atomic e c) = .ok SILENT) ∧
    (env c = .error er → DependentEffect.resolve env (.Atomic e c) = .error er) ∧
    ((∀ x ∈ cs, DependentEffect.resolve env x = .ok (f x)) →
      DependentEffect.resolve env (.NonStrict cs) = .ok (combine_non_strict (cs.map f))) ∧
    ((∀ x ∈ cs, DependentEffect.resolve env x = .ok (f x)) →
      DependentEffect.resolve env (.Strict cs) = .ok (combine_strict (cs.map f))) := by
  refine ⟨rfl, rfl, ?_, ?_, ?_, ?_, ?_⟩
  · intro h
    show (match env c with
      | .error er => Except.error er
      | .ok true => Except.ok (some e)
      | .ok false => Except.ok SILENT) = _
    rw [h]
  · intro h
    show (match env c with
      | .error er => Except.error er
      | .ok true => Except.ok (some e)
      | .ok false => Except.ok SILENT) = _
    rw [h]
  · intro h
    show (match env c with
      | .error er => Except.error er
      | .ok true => Except.ok (some e)
      | .ok false => Except.ok SILENT) = _
    rw [h]
  · intro h
    show (match resolve_all env cs with
      | .error e => Except.error e
      | .ok resolved => Except.ok (combine_non_strict resolved)) = _
    rw [resolve_all_of_forall_ok env f cs h]
  · intro h
    show (match resolve_all env cs with
      | .error e => Except.error e
      | .ok resolved => Except.ok (combine_strict resolved)) = _
    rw [resolve_all_of_forall_ok env f cs h]

/-- Concrete instance of claim C4: with the two-valued environment that
evaluates a boolean expression to itself and never fails, a conditional
allow resolves to ALLOW under true and SILENT under false, a composite
combines its children, and the failing environment propagates its error. -/
theorem C4_witness :
    DependentEffect.resolve (fun b : Bool => (Except.ok b : Except Unit Bool))
      (.Atomic Effect.ALLOW true) = .ok (some Effect.ALLOW) ∧
    DependentEffect.resolve (fun b : Bool => (Except.ok b : Except Unit Bool))
      (.Atomic Effect.ALLOW false) = .ok SILENT ∧
    DependentEffect.resolve (fun _ : Unit => (Except.error () : Except Unit Bool))
      (.Atomic Effect.ALLOW ()) = .error () ∧
    DependentEffect.resolve (fun b : Bool => (Except.ok b : Except Unit Bool))
      (.NonStrict [.Fixed Effect.DENY, .Atomic Effect.ALLOW true]) =
      .ok (combine_non_strict [some Effect.DENY, some Effect.ALLOW]) := by
  refine ⟨?_, ?_, ?_, ?_⟩
  · exact (C4_resolve_cases _ Effect.ALLOW true () [] (fun _ => SILENT)).2.2.1 rfl
  · exact (C4_resolve_cases _ Effect.ALLOW false () [] (fun _ => SILENT)).2.2.2.1 rfl
  · exact (C4_resolve_cases _ Effect.ALLOW () () [] (fun _ => SILENT)).2.2.2.2.1 rfl
  · have h := (C4_resolve_cases (fun b : Bool => (Except.ok b : Except Unit Bool))
      Effect.ALLOW true ()
      [.Fixed Effect.DENY, .Atomic Effect.ALLOW true]
      (fun x => match x with
        | .Fixed e => some e
        | .Atomic e _ => some e
        | _ => SILENT)).2.2.2.2.2.1
    exact h (by
      intro x hx
      fin_cases hx
      · rfl
      · rfl)

theorem resolve_all_append_error {CExp : Type u} {ε : Type v}
    (env : Env CExp ε) (f : DependentEffect CExp → ComputedEffect)
    (t : DependentEffect CExp) (r : List (DependentEffect CExp)) (er : ε) :
    ∀ (l : List (DependentEffect CExp)),
      (∀ x ∈ l, DependentEffect.resolve env x = .ok (f x)) →
      DependentEffect.resolve env t = .error er →
      resolve_all env (l ++ t :: r) = .error er := by
  intro l
  induction l with
  | nil =>
    intro _ ht
    show (match DependentEffect.resolve env t with
      | .error e => Except.error e
      | .ok v =>
        match resolve_all env r with
        | .error e => Except.error e
        | .ok rs => Except.ok (v :: rs)) = _
    rw [ht]
  | cons x xs ih =>
    intro h ht
    have hx := h x (List.mem_cons_self _ _)
    have hxs := ih (fun y hy => h y (List.mem_cons_of_mem _ hy)) ht
    show (match DependentEffect.resolve env x with
      | .error e => Except.error e
      | .ok v =>
        match resolve_all env (xs ++ t :: r) with
        | .error e => Except.error e
        | .ok rs => Except.ok (v :: rs)) = _
    rw [hx, hxs]

/-- Claim C5: an error from a reached condition aborts resolution. If every
child to the left resolves without error and a `Conditional`/`Atomic`
child's condition evaluation fails, the enclosing `NonStrict` or `Strict`
node resolves to that error — never to a combined effect — and
`resolve_all` likewise returns the first error in iteration order instead
of any partial list of results. -/
theorem C5_resolve_error_fail_fast {CExp : Type u} {ε : Type v}
    (env : Env CExp ε) (f : DependentEffect CExp → ComputedEffect)
    (l r : List (DependentEffect CExp)) (e : Effect) (c : CExp) (er : ε)
    (t : DependentEffect CExp) :
    ((∀ x ∈ l, DependentEffect.resolve env x = .ok (f x)) → env c = .error er →
      DependentEffect.resolve env (.NonStrict (l ++ .Atomic e c :: r)) = .error er ∧
      DependentEffect.resolve env (.Strict (l ++ .Atomic e c :: r)) = .error er) ∧
    ((∀ x ∈ l, DependentEffect.resolve env x = .ok (f x)) →
      DependentEffect.resolve env t = .error er →
      resolve_all env (l ++ t :: r) = .error er) := by
  constructor
  · intro hl hc
    have hatomic : DependentEffect.resolve env (.Atomic e c) = .error er := by
      show (match env c with
        | .error er => Except.error er
        | .ok true => Except.ok (some e)
        | .ok false => Except.ok SILENT) = _
      rw [hc]
    have hall := resolve_all_append_error env f (.Atomic e c) r er l hl hatomic
    constructor
    · show (match resolve_all env (l ++ .Atomic e c :: r) with
        | .error e => Except.error e
        | .ok resolved => Except.ok (combine_non_strict resolved)) = _
      rw [hall]
    · show (match resolve_all env (l ++ .Atomic e c :: r) with
        | .error e => Except.error e
        | .ok resolved => Except.ok (combine_strict resolved)) = _
      rw [hall]
  · exact resolve_all_append_error env f t r er l

/-- Concrete instance of claim C5: against the always-failing environment,
`NonStrict([Fixed(ALLOW), Atomic(ALLOW, cexp), Fixed(DENY)])` resolves to
the error, not to `Ok(DENY)`, and `resolve_all` on a batch whose second
element errs returns the error. -/
theorem C5_witness :
    DependentEffect.resolve (fun _ : Unit => (Except.error () : Except Unit Bool))
      (.NonStrict [.Fixed Effect.ALLOW, .Atomic Effect.ALLOW (), .Fixed Effect.DENY]) =
      .error () ∧
    resolve_all (fun _ : Unit => (Except.error () : Except Unit Bool))
      [.Fixed Effect.ALLOW, .Atomic Effect.ALLOW (), .Fixed Effect.DENY] =
      .error () := by
  have h := C5_resolve_error_fail_fast
    (fun _ : Unit => (Except.error () : Except Unit Bool))
    (fun x => match x with | .Fixed e => some e | _ => SILENT)
    [.Fixed Effect.ALLOW] [.Fixed Effect.DENY] Effect.ALLOW () ()
    (.Atomic Effect.ALLOW ())
  have hl : ∀ x ∈ ([.Fixed Effect.ALLOW] : List (DependentEffect Unit)),
      DependentEffect.resolve (fun _ : Unit => (Except.error () : Except Unit Bool)) x =
        .ok ((fun x => match x with | .Fixed e => some e | _ => SILENT) x) := by
    intro x hx
    fin_cases hx
    rfl
  have hatomic : DependentEffect.resolve
      (fun _ : Unit => (Except.error () : Except Unit Bool))
      (.Atomic Effect.ALLOW ()) = .error () := rfl
  exact ⟨(h.1 hl rfl).1, h.2 hl hatomic⟩

/-- Policy tree of `src/policy.rs`: unconditional and conditional leaf
statements carrying matcher values, and `Aggregate` compositions. The
matcher type parameters stand for the `ResourceMatch`/`ActionMatch`
trait objects; their `test` methods are passed separately to the
operations below, mirroring the trait bounds on the Rust impl. -/
inductive Policy (RMatch AMatch CExp : Type u) where
  | Unconditional (rm : RMatch) (am : AMatch) (eff : Effect)
  | Conditional (rm : RMatch) (am : AMatch) (eff : Effect) (cexp : CExp)
  | Aggregate (children : List (Policy RMatch AMatch CExp))

/-- `Policy::applies` of `src/policy.rs`: leaves apply when both matchers
match; an `Aggregate` node always applies (`Aggregate(_) => true` in the
source). -/
def Policy.applies (testR : RMatch → R → Bool) (testA : AMatch → A → Bool) :
    Policy RMatch AMatch CExp → R → A → Bool
  | .Conditional rm am _ _, r, a => testR rm r && testA am a
  | .Unconditional rm am _, r, a => testR rm r && testA am a
  | .Aggregate _, _, _ => true

mutual

/-- `Policy::apply` of `src/policy.rs`: if the node applies, a leaf yields
its (possibly condition-deferred) effect and an `Aggregate` yields the
non-strict composition of its children applied to the same subject;
otherwise the node yields `Silent`. -/
def Policy.apply (testR : RMatch → R → Bool) (testA : AMatch → A → Bool) :
    Policy RMatch AMatch CExp → R → A → DependentEffect CExp
  | p, r, a =>
    if p.applies testR testA r a then
      match p with
      | .Conditional _ _ eff cond => .Atomic eff cond
      | .Unconditional _ _ eff => .Fixed eff
      | .Aggregate ts => .NonStrict (Policy.applyList testR testA ts r a)
    else .Silent

/-- Children of an `Aggregate` node mapped through `apply` on the same
subject (the `ts.into_iter().map(|t| t.apply(resource, action))` of the
source). -/
def Policy.applyList (testR : RMatch → R → Bool) (testA : AMatch → A → Bool) :
    List (Policy RMatch AMatch CExp) → R → A → List (DependentEffect CExp)
  | [], _, _ => []
  | p :: ps, r, a =>
    Policy.apply testR testA p r a :: Policy.applyList testR testA ps r a

end

theorem Policy.applyList_eq_map (testR : RMatch → R → Bool) (testA : AMatch → A → Bool)
    (r : R) (a : A) :
    ∀ ts : List (Policy RMatch AMatch CExp),
      Policy.applyList testR testA ts r a =
        ts.map (fun t => Policy.apply testR testA t r a) := by
  intro ts
  induction ts with
  | nil => rfl
  | cons p ps ih => rw [List.map_cons, ← ih]; rfl

/-- The claim C6 predicts that an `Aggregate`/`Compound` node applies only
if some child applies; the code returns true for an `Aggregate` with no
children, refuting the claim at that input. -/
theorem C6_counterexample :
    Policy.applies (fun _ _ : Unit => false) (fun _ _ : Unit => false)
      (Policy.Aggregate ([] : List (Policy Unit Unit Unit))) () () = true := rfl

/-- Claim C6 (amended): `Policy::applies` returns true for every
`Compound`/`Aggregate` node unconditionally, regardless of its children —
in particular an `Aggregate` with no children, or whose children all fail
to match, still applies — while a leaf applies iff both its matchers
match. -/
theorem C6_applies_aggregate {RMatch AMatch CExp R A : Type}
    (testR : RMatch → R → Bool) (testA : AMatch → A → Bool)
    (children : List (Policy RMatch AMatch CExp)) (r : R) (a : A) :
    Policy.applies testR testA (Policy.Aggregate children) r a = true ∧
    (∀ (rm : RMatch) (am : AMatch) (e : Effect),
      Policy.applies testR testA
        (Policy.Unconditional rm am e : Policy RMatch AMatch CExp) r a =
        (testR rm r && testA am a)) ∧
    (∀ (rm : RMatch) (am : AMatch) (e : Effect) (c : CExp),
      Policy.applies testR testA (Policy.Conditional rm am e c) r a =
        (testR rm r && testA am a)) :=
  ⟨rfl, fun _ _ _ => rfl, fun _ _ _ _ => rfl⟩

/-- Claim C7: `Policy::apply` performs only matcher testing: a leaf whose
matchers fail yields `Silent`; a matching `Unconditional` yields
`Fixed(e)`; a matching `Conditional` yields `Atomic(e, c)` with the
condition untouched; and an `Aggregate` yields the composition of every
child mapped through `apply` on the same subject, matching or not. -/
theorem C7_apply_cases {RMatch AMatch CExp R A : Type}
    (testR : RMatch → R → Bool) (testA : AMatch → A → Bool)
    (rm : RMatch) (am : AMatch) (e : Effect) (c : CExp)
    (ts : List (Policy RMatch AMatch CExp)) (r : R) (a : A) :
    ((testR rm r && testA am a) = false →
      Policy.apply testR testA
        (Policy.Unconditional rm am e : Policy RMatch AMatch CExp) r a = .Silent ∧
      Policy.apply testR testA (Policy.Conditional rm am e c) r a = .Silent) ∧
    ((testR rm r && testA am a) = true →
      Policy.apply testR testA
        (Policy.Unconditional rm am e : Policy RMatch AMatch CExp) r a = .Fixed e ∧
      Policy.apply testR testA (Policy.Conditional rm am e c) r a = .Atomic e c) ∧
    Policy.apply testR testA (Policy.Aggregate ts) r a =
      .NonStrict (ts.map (fun t => Policy.apply testR testA t r a)) := by
  refine ⟨?_, ?_, ?_⟩
  · intro h
    constructor
    · show (if Policy.applies testR testA (Policy.Unconditional rm am e) r a then _
        else DependentEffect.Silent) = _
      rw [show Policy.applies testR testA (Policy.Unconditional rm am e) r a =
        (testR rm r && testA am a) from rfl, h]
      rfl
    · show (if Policy.applies testR testA (Policy.Conditional rm am e c) r a then _
        else DependentEffect.Silent) = _
      rw [show Policy.applies testR testA (Policy.Conditional rm am e c) r a =
        (testR rm r && testA am a) from rfl, h]
      rfl
  · intro h
    constructor
    · show (if Policy.applies testR testA (Policy.Unconditional rm am e) r a then
        DependentEffect.Fixed e else DependentEffect.Silent) = _
      rw [show Policy.applies testR testA (Policy.Unconditional rm am e) r a =
        (testR rm r && testA am a) from rfl, h]
      rfl
    · show (if Policy.applies testR testA (Policy.Conditional rm am e c) r a then
        DependentEffect.Atomic e c else DependentEffect.Silent) = _
      rw [show Policy.applies testR testA (Policy.Conditional rm am e c) r a =
        (testR rm r && testA am a) from rfl, h]
      rfl
  · show (if Policy.applies testR testA (Policy.Aggregate ts) r a then
      DependentEffect.NonStrict (Policy.applyList testR testA ts r a)
      else DependentEffect.Silent) = _
    rw [Policy.applyList_eq_map]
    rfl

/-- Concrete instance of claim C7: with equality matchers over natural
numbers, a missed leaf is silent, matched leaves keep their effect and
condition, and an aggregate maps its children. -/
theorem C7_witness :
    Policy.apply (fun m r : Nat => m == r) (fun m a : Nat => m == a)
      (Policy.Unconditional 1 2 Effect.DENY : Policy Nat Nat Unit) 1 3 = .Silent ∧
    Policy.apply (fun m r : Nat => m == r) (fun m a : Nat => m == a)
      (Policy.Unconditional 1 2 Effect.DENY : Policy Nat Nat Unit) 1 2 =
      .Fixed Effect.DENY ∧
    Policy.apply (fun m r : Nat => m == r) (fun m a : Nat => m == a)
      (Policy.Conditional 1 2 Effect.ALLOW () : Policy Nat Nat Unit) 1 2 =
      .Atomic Effect.ALLOW () ∧
    Policy.apply (fun m r : Nat => m == r) (fun m a : Nat => m == a)
      (Policy.Aggregate [Policy.Unconditional 1 2 Effect.DENY,
        Policy.Conditional 9 2 Effect.ALLOW ()] : Policy Nat Nat Unit) 1 2 =
      .NonStrict [.Fixed Effect.DENY, .Silent] := by
  refine ⟨?_, ?_, ?_, ?_⟩
  · exact ((C7_apply_cases (fun m r : Nat => m == r) (fun m a : Nat => m == a)
      1 2 Effect.DENY () ([] : List (Policy Nat Nat Unit)) 1 3).1 (by decide)).1
  · exact ((C7_apply_cases (fun m r : Nat => m == r) (fun m a : Nat => m == a)
      1 2 Effect.DENY () ([] : List (Policy Nat Nat Unit)) 1 2).2.1 (by decide)).1
  · exact ((C7_apply_cases (fun m r : Nat => m == r) (fun m a : Nat => m == a)
      1 2 Effect.ALLOW () ([] : List (Policy Nat Nat Unit)) 1 2).2.1 (by decide)).2
  · have h := (C7_apply_cases (fun m r : Nat => m == r) (fun m a : Nat => m == a)
      1 2 Effect.DENY ()
      [Policy.Unconditional 1 2 Effect.DENY, Policy.Conditional 9 2 Effect.ALLOW ()]
      1 2).2.2
    rw [h, List.map_cons, List.map_cons, List.map_nil]
    have h1 := ((C7_apply_cases (fun m r : Nat => m == r) (fun m a : Nat => m == a)
      1 2 Effect.DENY () ([] : List (Policy Nat Nat Unit)) 1 2).2.1 (by decide)).1
    have h2 := ((C7_apply_cases (fun m r : Nat => m == r) (fun m a : Nat => m == a)
      9 2 Effect.ALLOW () ([] : List (Policy Nat Nat Unit)) 1 2).1 (by decide)).2
    rw [h1, h2]

/-- Flat policy assertion of `crates/core/src/policy.rs`: an unconditional
or conditional primitive rule carrying matcher values. -/
inductive Assertion (RMatch AMatch CExp : Type u) where
  | Unconditional (rm : RMatch) (am : AMatch) (eff : Effect)
  | Conditional (rm : RMatch) (am : AMatch) (eff : Effect) (cexp : CExp)

/-- `SubjectAssertion<CExp>` of `crates/core/src/policy.rs`: the
statement-level projection of an assertion once the subject is fixed. -/
inductive SubjectAssertion (CExp : Type u) where
  | Unconditional (eff : Effect)
  | Conditional (eff : Effect) (cexp : CExp)
deriving DecidableEq

/-- `Assertion::applies_to_subject`: both matchers match the subject. -/
def Assertion.applies_to_subject (testR : RMatch → R → Bool) (testA : AMatch → A → Bool) :
    Assertion RMatch AMatch CExp → R → A → Bool
  | .Unconditional rm am _, r, a => testR rm r && testA am a
  | .Conditional rm am _ _, r, a => testR rm r && testA am a

/-- The `SubjectAssertion` produced by `ForSubjectIter::next` for a matching
assertion: effect and condition preserved, matchers dropped. -/
def Assertion.toSubject : Assertion RMatch AMatch CExp → SubjectAssertion CExp
  | .Conditional _ _ eff exp => .Conditional eff exp
  | .Unconditional _ _ eff => .Unconditional eff

/-- `Policy::for_subject` of `crates/core/src/policy.rs`: a `Policy` is a
vector of assertions, and the iterator walks it in order, skipping
assertions whose matchers do not match the subject and projecting the
ones that do (the loop in `ForSubjectIter::next`). The whole sequence
produced by the iterator is embedded as a list. -/
def for_subject (testR : RMatch → R → Bool) (testA : AMatch → A → Bool) :
    List (Assertion RMatch AMatch CExp) → R → A → List (SubjectAssertion CExp)
  | [], _, _ => []
  | s :: rest, r, a =>
    if s.applies_to_subject testR testA r a then
      s.toSubject :: for_subject testR testA rest r a
    else
      for_subject testR testA rest r a

theorem for_subject_append (testR : RMatch → R → Bool) (testA : AMatch → A → Bool)
    (r : R) (a : A) :
    ∀ (p₁ p₂ : List (Assertion RMatch AMatch CExp)),
      for_subject testR testA (p₁ ++ p₂) r a =
        for_subject testR testA p₁ r a ++ for_subject testR testA p₂ r a := by
  intro p₁ p₂
  induction p₁ with
  | nil => rfl
  | cons s p₁ ih =>
    show (if s.applies_to_subject testR testA r a then
        s.toSubject :: for_subject testR testA (p₁ ++ p₂) r a
      else for_subject testR testA (p₁ ++ p₂) r a) = _
    by_cases h : s.applies_to_subject testR testA r a = true
    · rw [if_pos h, ih]
      show _ = (if s.applies_to_subject testR testA r a then
          s.toSubject :: for_subject testR testA p₁ r a
        else for_subject testR testA p₁ r a) ++ _
      rw [if_pos h]
      rfl
    · rw [if_neg h, ih]
      show _ = (if s.applies_to_subject testR testA r a then
          s.toSubject :: for_subject testR testA p₁ r a
        else for_subject testR testA p₁ r a) ++ _
      rw [if_neg h]

theorem for_subject_length_le (testR : RMatch → R → Bool) (testA : AMatch → A → Bool)
    (r : R) (a : A) :
    ∀ p : List (Assertion RMatch AMatch CExp),
      (for_subject testR testA p r a).length ≤ p.length := by
  intro p
  induction p with
  | nil => exact Nat.le_refl _
  | cons s rest ih =>
    show (if s.applies_to_subject testR testA r a then
        s.toSubject :: for_subject testR testA rest r a
      else for_subject testR testA rest r a).length ≤ rest.length + 1
    by_cases h : s.applies_to_subject testR testA r a = true
    · rw [if_pos h]
      exact Nat.succ_le_succ ih
    · rw [if_neg h]
      exact Nat.le_succ_of_le ih

/-- Claim C8: `for_subject` yields exactly one `SubjectAssertion` per
assertion whose matchers both match the subject — `Unconditional(effect)`
for an unconditional assertion and `Conditional(effect, condition)` for a
conditional one, fields preserved — yields nothing for assertions whose
matchers do not both match, and its output is finite, bounded by the
number of assertions in the policy. -/
theorem C8_for_subject_cases {RMatch AMatch CExp R A : Type}
    (testR : RMatch → R → Bool) (testA : AMatch → A → Bool)
    (p₁ p₂ : List (Assertion RMatch AMatch CExp))
    (s : Assertion RMatch AMatch CExp) (r : R) (a : A) :
    (s.applies_to_subject testR testA r a = true →
      for_subject testR testA (p₁ ++ s :: p₂) r a =
        for_subject testR testA p₁ r a ++
          s.toSubject :: for_subject testR testA p₂ r a) ∧
    (s.applies_to_subject testR testA r a = false →
      for_subject testR testA (p₁ ++ s :: p₂) r a =
        for_subject testR testA p₁ r a ++ for_subject testR testA p₂ r a) ∧
    (∀ (rm : RMatch) (am : AMatch) (e : Effect),
      (Assertion.Unconditional rm am e : Assertion RMatch AMatch CExp).toSubject =
        SubjectAssertion.Unconditional e) ∧
    (∀ (rm : RMatch) (am : AMatch) (e : Effect) (c : CExp),
      (Assertion.Conditional rm am e c).toSubject =
        SubjectAssertion.Conditional e c) ∧
    (for_subject testR testA (p₁ ++ s :: p₂) r a).length ≤ (p₁ ++ s :: p₂).length := by
  refine ⟨?_, ?_, fun _ _ _ => rfl, fun _ _ _ _ => rfl,
    for_subject_length_le testR testA r a _⟩
  · intro h
    rw [for_subject_append]
    show _ ++ (if s.applies_to_subject testR testA r a then
        s.toSubject :: for_subject testR testA p₂ r a
      else for_subject testR testA p₂ r a) = _
    rw [if_pos h]
  · intro h
    rw [for_subject_append]
    show _ ++ (if s.applies_to_subject testR testA r a then
        s.toSubject :: for_subject testR testA p₂ r a
      else for_subject testR testA p₂ r a) = _
    rw [if_neg (by rw [h]; exact Bool.false_ne_true)]

/-- Concrete instance of claim C8: among three leaf statements, the two
whose matchers match subject (1, 2) are projected in order and the
non-matching one is skipped. -/
theorem C8_witness :
    for_subject (fun m r : Nat => m == r) (fun m a : Nat => m == a)
      [Assertion.Unconditional 1 2 Effect.ALLOW,
       Assertion.Conditional 9 2 Effect.ALLOW true,
       Assertion.Conditional 1 2 Effect.DENY false] 1 2 =
      [SubjectAssertion.Unconditional Effect.ALLOW,
       SubjectAssertion.Conditional Effect.DENY false] ∧
    (for_subject (fun m r : Nat => m == r) (fun m a : Nat => m == a)
      [Assertion.Unconditional 1 2 Effect.ALLOW,
       Assertion.Conditional 9 2 Effect.ALLOW true,
       Assertion.Conditional 1 2 Effect.DENY false] 1 2).length ≤ 3 := by
  have h1 := (C8_for_subject_cases (fun m r : Nat => m == r) (fun m a : Nat => m == a)
    [] [Assertion.Conditional 9 2 Effect.ALLOW true,
        Assertion.Conditional 1 2 Effect.DENY false]
    (Assertion.Unconditional 1 2 Effect.ALLOW) 1 2).1 (by decide)
  have h2 := (C8_for_subject_cases (fun m r : Nat => m == r) (fun m a : Nat => m == a)
    [] [Assertion.Conditional 1 2 Effect.DENY false]
    (Assertion.Conditional 9 2 Effect.ALLOW true) 1 2).2.1 (by decide)
  have h3 := (C8_for_subject_cases (fun m r : Nat => m == r) (fun m a : Nat => m == a)
    [] [] (Assertion.Conditional 1 2 Effect.DENY false) 1 2).1 (by decide)
  have hlen := (C8_for_subject_cases (fun m r : Nat => m == r) (fun m a : Nat => m == a)
    [] [Assertion.Conditional 9 2 Effect.ALLOW true,
        Assertion.Conditional 1 2 Effect.DENY false]
    (Assertion.Unconditional 1 2 Effect.ALLOW) 1 2).2.2.2.2
  refine ⟨?_, hlen⟩
  rw [show ([Assertion.Unconditional 1 2 Effect.ALLOW,
      Assertion.Conditional 9 2 Effect.ALLOW true,
      Assertion.Conditional 1 2 Effect.DENY false] :
      List (Assertion Nat Nat Bool)) =
    [] ++ Assertion.Unconditional 1 2 Effect.ALLOW ::
      [Assertion.Conditional 9 2 Effect.ALLOW true,
       Assertion.Conditional 1 2 Effect.DENY false] from rfl, h1]
  rw [show ([Assertion.Conditional 9 2 Effect.ALLOW true,
      Assertion.Conditional 1 2 Effect.DENY false] :
      List (Assertion Nat Nat Bool)) =
    [] ++ Assertion.Conditional 9 2 Effect.ALLOW true ::
      [Assertion.Conditional 1 2 Effect.DENY false] from rfl, h2]
  rw [show ([Assertion.Conditional 1 2 Effect.DENY false] :
      List (Assertion Nat Nat Bool)) =
    [] ++ Assertion.Conditional 1 2 Effect.DENY false :: [] from rfl, h3]
  rfl

/-- `PolicyTemplate<RMatchTpl, AMatch, CExp>` of `src/policy_template.rs`:
a policy tree whose resource matcher is a template value. -/
inductive PolicyTemplate (RMatchTpl AMatch CExp : Type u) where
  | Unconditional (rmtpl : RMatchTpl) (am : AMatch) (eff : Effect)
  | Conditional (rmtpl : RMatchTpl) (am : AMatch) (eff : Effect) (cexp : CExp)
  | Aggregate (children : List (PolicyTemplate RMatchTpl AMatch CExp))

mutual

/-- `Template::apply` for `PolicyTemplate` (`src/policy_template.rs`):
substitute the parameter into every resource-matcher template,
rebuilding the tree. The `Template<RMatch>` bound on `RMatchTpl` is
modeled by the function `applyR`, standing for the template's own
`apply`. -/
def PolicyTemplate.applyTpl (applyR : RMatchTpl → Param → RMatch) :
    PolicyTemplate RMatchTpl AMatch CExp → Param → Policy RMatch AMatch CExp
  | .Aggregate elems, p => .Aggregate (PolicyTemplate.applyTplList applyR elems p)
  | .Unconditional rmtpl am eff, p => .Unconditional (applyR rmtpl p) am eff
  | .Conditional rmtpl am eff cond, p => .Conditional (applyR rmtpl p) am eff cond

/-- Children of an `Aggregate` template instantiated in order (the
`elems.into_iter().map(|e| e.apply(p))` of the source). -/
def PolicyTemplate.applyTplList (applyR : RMatchTpl → Param → RMatch) :
    List (PolicyTemplate RMatchTpl AMatch CExp) → Param →
      List (Policy RMatch AMatch CExp)
  | [], _ => []
  | e :: es, p =>
    PolicyTemplate.applyTpl applyR e p :: PolicyTemplate.applyTplList applyR es p

end

theorem PolicyTemplate.applyTplList_eq_map (applyR : RMatchTpl → Param → RMatch)
    (p : Param) :
    ∀ elems : List (PolicyTemplate RMatchTpl AMatch CExp),
      PolicyTemplate.applyTplList applyR elems p =
        elems.map (fun e => PolicyTemplate.applyTpl applyR e p) := by
  intro elems
  induction elems with
  | nil => rfl
  | cons e es ih => rw [List.map_cons, ← ih]; rfl

/-- Claim C9: template instantiation is a structure-preserving map:
`Aggregate(children).apply(p)` is the `Aggregate` policy of each child
applied to `p` in order, `Unconditional(rmtpl, am, eff).apply(p)` is
`Policy::Unconditional(rmtpl.apply(p), am, eff)`, and analogously for
`Conditional` — only the resource-matcher template is substituted; action
matcher, effect and condition pass through unchanged. -/
theorem C9_template_apply_structure {RMatchTpl RMatch AMatch CExp Param : Type}
    (applyR : RMatchTpl → Param → RMatch) (p : Param)
    (children : List (PolicyTemplate RMatchTpl AMatch CExp))
    (rmtpl : RMatchTpl) (am : AMatch) (eff : Effect) (c : CExp) :
    PolicyTemplate.applyTpl applyR (PolicyTemplate.Aggregate children) p =
      Policy.Aggregate (children.map (fun e => PolicyTemplate.applyTpl applyR e p)) ∧
    PolicyTemplate.applyTpl applyR
        (PolicyTemplate.Unconditional rmtpl am eff : PolicyTemplate RMatchTpl AMatch CExp)
        p =
      Policy.Unconditional (applyR rmtpl p) am eff ∧
    PolicyTemplate.applyTpl applyR (PolicyTemplate.Conditional rmtpl am eff c) p =
      Policy.Conditional (applyR rmtpl p) am eff c := by
  refine ⟨?_, rfl, rfl⟩
  show Policy.Aggregate (PolicyTemplate.applyTplList applyR children p) = _
  rw [PolicyTemplate.applyTplList_eq_map]

/-- `ComputedEffect2` of `crates/core/src/effect.rs`: a nested
representation of a computed effect, either a definite effect or a
complex combination of sub-effects (with `SILENT2` the empty `Complex`). -/
inductive ComputedEffect2 where
  | Complex (ts : List ComputedEffect2)
  | Definite (eff : Effect)

mutual

/-- `Silent::silent` for `ComputedEffect2`: a definite effect is never
silent; a complex effect is silent iff all its constituents are
(`ts.iter().all(|t| t.silent())`). -/
def ComputedEffect2.silent : ComputedEffect2 → Bool
  | .Definite _ => false
  | .Complex ts => silentAll ts

/-- The `all` iteration inside `silent`. -/
def silentAll : List ComputedEffect2 → Bool
  | [] => true
  | t :: ts => t.silent && silentAll ts

end

/-- The first `any` iteration inside `authorized` for `ComputedEffect2`:
`ts.iter().any(|t| !t.silent())`. -/
def anyNonSilent : List ComputedEffect2 → Bool
  | [] => false
  | t :: ts => !t.silent || anyNonSilent ts

mutual

/-- `Authorized::authorized` for `ComputedEffect2`: a definite effect is
authorized iff it is ALLOW; a complex effect is authorized iff some
constituent is non-silent and no constituent is non-silent and
unauthorized. -/
def ComputedEffect2.authorized : ComputedEffect2 → Bool
  | .Definite eff => eff == Effect.ALLOW
  | .Complex ts => anyNonSilent ts && !anyNonSilentUnauthorized ts

/-- The second `any` iteration inside `authorized`:
`ts.iter().any(|t| !t.silent() && !t.authorized())`. -/
def anyNonSilentUnauthorized : List ComputedEffect2 → Bool
  | [] => false
  | t :: ts => (!t.silent && !t.authorized) || anyNonSilentUnauthorized ts

end

mutual

/-- Flattening of a `ComputedEffect2` tree into its `Definite` leaves in
order; this is the flat view against which claim C10 compares the nested
representation. -/
def ComputedEffect2.leaves : ComputedEffect2 → List Effect
  | .Definite eff => [eff]
  | .Complex ts => leavesList ts

/-- Leaves of a list of trees, concatenated in order. -/
def leavesList : List ComputedEffect2 → List Effect
  | [] => []
  | t :: ts => t.leaves ++ leavesList ts

end

mutual

theorem silent_iff_leaves (t : ComputedEffect2) :
    t.silent = true ↔ t.leaves = [] := by
  cases t with
  | Definite eff =>
    show false = true ↔ [eff] = []
    simp
  | Complex ts =>
    show silentAll ts = true ↔ leavesList ts = []
    exact silentAll_iff_leaves ts

theorem silentAll_iff_leaves (ts : List ComputedEffect2) :
    silentAll ts = true ↔ leavesList ts = [] := by
  cases ts with
  | nil => simp [silentAll, leavesList]
  | cons t ts =>
    show (t.silent && silentAll ts) = true ↔ t.leaves ++ leavesList ts = []
    rw [Bool.and_eq_true, silent_iff_leaves t, silentAll_iff_leaves ts,
      List.append_eq_nil]

end

theorem allow_mem_of_ne_nil {l : List Effect}
    (hne : l ≠ []) (hd : Effect.DENY ∉ l) : Effect.ALLOW ∈ l := by
  cases l with
  | nil => exact absurd rfl hne
  | cons e l =>
    cases e with
    | ALLOW => exact List.mem_cons_self _ _
    | DENY => exact absurd (List.mem_cons_self _ _) hd

theorem anyNonSilent_iff_leaves (ts : List ComputedEffect2) :
    anyNonSilent ts = true ↔ leavesList ts ≠ [] := by
  induction ts with
  | nil => simp [anyNonSilent, leavesList]
  | cons t ts ih =>
    show (!t.silent || anyNonSilent ts) = true ↔ t.leaves ++ leavesList ts ≠ []
    rw [Bool.or_eq_true, Bool.not_eq_true', ih]
    constructor
    · rintro (h | h)
      · intro happ
        have := (List.append_eq_nil.mp happ).1
        rw [← silent_iff_leaves] at this
        rw [this] at h
        cases h
      · intro happ
        exact h (List.append_eq_nil.mp happ).2
    · intro h
      by_cases hsil : t.silent = true
      · refine Or.inr fun hnil => h ?_
        rw [silent_iff_leaves] at hsil
        rw [hsil, hnil]
        rfl
      · exact Or.inl (Bool.not_eq_true _ ▸ Bool.of_not_eq_true hsil)

mutual

theorem authorized_iff_leaves (t : ComputedEffect2) :
    t.authorized = true ↔
      (Effect.ALLOW ∈ t.leaves ∧ Effect.DENY ∉ t.leaves) := by
  cases t with
  | Definite eff =>
    cases eff with
    | ALLOW =>
      show (Effect.ALLOW == Effect.ALLOW) = true ↔ _
      simp [ComputedEffect2.leaves]
    | DENY =>
      show (Effect.DENY == Effect.ALLOW) = true ↔ _
      simp [ComputedEffect2.leaves]
  | Complex ts =>
    show (anyNonSilent ts && !anyNonSilentUnauthorized ts) = true ↔
      (Effect.ALLOW ∈ leavesList ts ∧ Effect.DENY ∉ leavesList ts)
    rw [Bool.and_eq_true, Bool.not_eq_true', Bool.eq_false_iff,
      Ne, anyNonSilentUnauthorized_iff_leaves ts, anyNonSilent_iff_leaves ts]
    constructor
    · rintro ⟨hne, hd⟩
      exact ⟨allow_mem_of_ne_nil hne hd, hd⟩
    · rintro ⟨ha, hd⟩
      exact ⟨fun hnil => (by rw [hnil] at ha; cases ha), hd⟩

theorem anyNonSilentUnauthorized_iff_leaves (ts : List ComputedEffect2) :
    anyNonSilentUnauthorized ts = true ↔ Effect.DENY ∈ leavesList ts := by
  cases ts with
  | nil => simp [anyNonSilentUnauthorized, leavesList]
  | cons t ts =>
    show ((!t.silent && !t.authorized) || anyNonSilentUnauthorized ts) = true ↔
      Effect.DENY ∈ t.leaves ++ leavesList ts
    rw [Bool.or_eq_true, Bool.and_eq_true, Bool.not_eq_true', Bool.not_eq_true',
      Bool.eq_false_iff, Bool.eq_false_iff, Ne, Ne,
      silent_iff_leaves t, authorized_iff_leaves t,
      anyNonSilentUnauthorized_iff_leaves ts, List.mem_append]
    constructor
    · rintro (⟨hne, hnauth⟩ | h)
      · by_cases hd : Effect.DENY ∈ t.leaves
        · exact Or.inl hd
        · exact absurd ⟨allow_mem_of_ne_nil hne hd, hd⟩ hnauth
      · exact Or.inr h
    · rintro (hd | h)
      · refine Or.inl ⟨fun hnil => (by rw [hnil] at hd; cases hd), fun hauth => hauth.2 hd⟩
      · exact Or.inr h

end

theorem combine_map_some_eq_allow_iff (l : List Effect) :
    combine_non_strict (l.map some) = some Effect.ALLOW ↔
      (Effect.ALLOW ∈ l ∧ Effect.DENY ∉ l) := by
  rw [combine_non_strict_sem]
  have hd : (some Effect.DENY ∈ l.map some) ↔ Effect.DENY ∈ l := by
    simp
  have ha : (some Effect.ALLOW ∈ l.map some) ↔ Effect.ALLOW ∈ l := by
    simp
  by_cases h1 : Effect.DENY ∈ l <;> by_cases h2 : Effect.ALLOW ∈ l <;>
    simp [hd, ha, h1, h2, SILENT]

/-- Claim C10: the nested `ComputedEffect2` representation is equivalent to
the flat three-valued non-strict algebra: `authorized()` holds iff the
non-strict combination of the flattened `Definite` leaves is ALLOW (at
least one ALLOW leaf and no DENY leaf), and `silent()` holds iff there is
no `Definite` leaf at all, regardless of the tree's grouping. -/
theorem C10_nested_effect_equiv_flat (t : ComputedEffect2) :
    (t.authorized = true ↔
      combine_non_strict ((t.leaves).map some) = some Effect.ALLOW) ∧
    (t.silent = true ↔ t.leaves = []) := by
  constructor
  · rw [authorized_iff_leaves, combine_map_some_eq_allow_iff]
  · exact silent_iff_leaves t

end AuthzCore
